import Mathlib

/-!
Shallow embedding of the halo2wrong range-check gadget (`src/range.rs`).

The gadget splits a field element into `LIMB_SIZE = 4` limbs of `BASE` bits
each.  `RangeChip::configure` registers four lookup constraints and one
algebraic gate; `RangeChip::decomposition` writes the witness into a
two-row region; `load_small_range_table` fills the fixed lookup table.

The field is the Pallas base field `Fp` used by the repository's test
(`halo2::pasta::Fp`), embedded as `ZMod pPasta`.  Machine-integer
computations (`1 << BASE` on a 32-bit literal, `as u64` casts) are embedded
with explicit `Option`/modular arithmetic so that Rust debug-mode shift
overflow (a panic) is `none`.
-/

/-- Modulus of the Pallas base field, `halo2::pasta::Fp`:
0x40000000000000000000000000000000224698fc094cf91b992d30ed00000001. -/
def pPasta : ℕ :=
  28948022309329048855892746252171976963363056481941560715954676764349967630337

instance : NeZero pPasta := ⟨by norm_num [pPasta]⟩

/-- The field the test circuit instantiates the chip at. -/
abbrev F : Type := ZMod pPasta

/-- `LIMB_SIZE` from `range.rs` line 21. -/
def LIMB_SIZE : ℕ := 4

/-- The four advice columns `a, b, c, d` handed to `configure`
(the test circuit allocates four distinct fresh columns). -/
inductive Col : Type where
  | a : Col
  | b : Col
  | c : Col
  | d : Col
deriving DecidableEq, Repr

/-- Polynomial expressions over the columns, the range selector and
constants, as built by `meta.query_advice` / `meta.query_selector`
inside `configure`.  `advice col rot` is `query_advice(col, Rotation(rot))`. -/
inductive Expr : Type where
  | advice (col : Col) (rot : ℤ) : Expr
  | sel : Expr
  | const (v : F) : Expr
  | add (e₁ e₂ : Expr) : Expr
  | sub (e₁ e₂ : Expr) : Expr
  | mul (e₁ e₂ : Expr) : Expr
deriving DecidableEq

/-- Evaluation of an expression against a trace `tr` (advice cell values)
and selector activation `s`, at absolute row `row`.  A queried selector
evaluates to `1` where enabled and `0` elsewhere. -/
def Expr.eval (tr : ℤ → Col → F) (s : ℤ → Bool) (row : ℤ) : Expr → F
  | .advice col rot => tr (row + rot) col
  | .sel => if s row then 1 else 0
  | .const v => v
  | .add e₁ e₂ => e₁.eval tr s row + e₂.eval tr s row
  | .sub e₁ e₂ => e₁.eval tr s row - e₂.eval tr s row
  | .mul e₁ e₂ => e₁.eval tr s row * e₂.eval tr s row

/-- Rust `1i32 << k` (the literal `1` in `(1 << BASE) as u64` at
range.rs:190-192 has type `i32`): `none` models the debug-mode panic when
the shift amount reaches the 32-bit width; otherwise the two's-complement
32-bit value of the shift. -/
def shlOneI32 (k : ℕ) : Option ℤ :=
  if k < 32 then some ((2 ^ k + 2 ^ 31) % 2 ^ 32 - 2 ^ 31) else none

/-- Rust `x as u64` on an `i32` value: two's-complement reinterpretation
into `0 .. 2^64 - 1`. -/
def i32AsU64 (x : ℤ) : ℕ := (x % 2 ^ 64).toNat

/-- `F::from_u64` of the `FieldExt` trait: reduce the 64-bit integer into
the field. -/
def fromU64 (x : ℕ) : F := (x : F)

/-- One gate coefficient `F::from_u64((1 << k) as u64)` from
range.rs:190-192, `none` when the 32-bit shift overflows (panics). -/
def gateCoeff (k : ℕ) : Option F :=
  (shlOneI32 k).map (fun x => fromU64 (i32AsU64 x))

/-- `small_range_table_values` from range.rs:147:
`(0..1u64 << BASE).map(|e| F::from_u64(e))`. -/
def smallRangeTableValues (base : ℕ) : List F :=
  (List.range (2 ^ base)).map (fun e => fromU64 e)

/-- The embedded `RangeConfig`: the registered lookup input expressions
(each paired with the single small-range table), the registered gate
polynomials, and the precomputed table contents.  Column and selector
handles are fixed (`Col`, the unique selector), so they are not repeated
here. -/
structure RangeConfigE : Type where
  lookups : List Expr
  gates : List Expr
  small_range_table_values : List F
deriving DecidableEq

/-- Embedding of `RangeChip::<F, BASE>::configure` (range.rs:143-208).
`none` models a panic from machine-integer shift overflow: the table bound
`1u64 << BASE` (range.rs:147) needs `BASE < 64`, and each gate coefficient
`(1i32 << k) as u64` (range.rs:190-192) needs `k < 32`.  The fourth lookup
queries column `c` (range.rs:176), exactly as the source does. -/
def configure (base : ℕ) : Option RangeConfigE :=
  if base < 64 then
    (gateCoeff base).bind fun u1 =>
    (gateCoeff (2 * base)).bind fun u2 =>
    (gateCoeff (3 * base)).map fun u3 =>
      { lookups :=
          [ Expr.mul (Expr.advice Col.a 0) Expr.sel
          , Expr.mul (Expr.advice Col.b 0) Expr.sel
          , Expr.mul (Expr.advice Col.c 0) Expr.sel
          , Expr.mul (Expr.advice Col.c 0) Expr.sel ]
      , gates :=
          [ Expr.mul Expr.sel
              (Expr.sub
                (Expr.add
                  (Expr.add
                    (Expr.add (Expr.advice Col.a 0)
                      (Expr.mul (Expr.advice Col.b 0) (Expr.const u1)))
                    (Expr.mul (Expr.advice Col.c 0) (Expr.const u2)))
                  (Expr.mul (Expr.advice Col.d 0) (Expr.const u3)))
                (Expr.advice Col.d (-1))) ]
      , small_range_table_values := smallRangeTableValues base }
  else none

/-- Operations `decomposition` performs on its region: enabling the
selector at a row offset, or assigning a value to an advice cell. -/
inductive RegionOp : Type where
  | enableSel (row : ℤ) : RegionOp
  | assign (col : Col) (row : ℤ) (v : F) : RegionOp

/-- Embedding of `RangeChip::decomposition` (range.rs:68-114): the list of
region operations performed, in source order, paired with `true` for
`Ok(())` and `false` for an early `Err(Error::SynthesisError)` return.
When `value_integer` is `none` the closure of the `d`-column assignment
fails after the selector enable and the three zero assignments; when
`value_limbs` is `none` the `limb 0` assignment fails after the integer
assignment. -/
def decomposition (value_integer : Option F) (value_limbs : Option (Fin 4 → F)) :
    List RegionOp × Bool :=
  match value_integer, value_limbs with
  | none, _ =>
      ([RegionOp.enableSel 1,
        RegionOp.assign Col.a 0 0, RegionOp.assign Col.b 0 0,
        RegionOp.assign Col.c 0 0], false)
  | some v, none =>
      ([RegionOp.enableSel 1,
        RegionOp.assign Col.a 0 0, RegionOp.assign Col.b 0 0,
        RegionOp.assign Col.c 0 0, RegionOp.assign Col.d 0 v], false)
  | some v, some l =>
      ([RegionOp.enableSel 1,
        RegionOp.assign Col.a 0 0, RegionOp.assign Col.b 0 0,
        RegionOp.assign Col.c 0 0, RegionOp.assign Col.d 0 v,
        RegionOp.assign Col.a 1 (l 0), RegionOp.assign Col.b 1 (l 1),
        RegionOp.assign Col.c 1 (l 2), RegionOp.assign Col.d 1 (l 3)], true)

/-- Replay a list of region operations onto an initially all-zero trace
with all selectors off (the mock prover's default cell value is zero):
yields the advice trace and the selector activation map. -/
def applyOps (ops : List RegionOp) : (ℤ → Col → F) × (ℤ → Bool) :=
  ops.foldl
    (fun st op =>
      match op with
      | RegionOp.enableSel r => (st.1, fun r2 => if r2 = r then true else st.2 r2)
      | RegionOp.assign col r v =>
          ((fun r2 c2 => if r2 = r ∧ c2 = col then v else st.1 r2 c2), st.2))
    ((fun _ _ => 0), (fun _ => false))

/-- Embedding of `load_small_range_table` (range.rs:116-132): the sequence
of `(index, value)` cell writes into the fixed table column, in order. -/
def load_small_range_table (values : List F) : List (ℕ × F) :=
  values.enum

/-- The mask the test circuit's `decompose` closure derives from
`let n = (1 << base) as usize` (range.rs:257) and `BigUint::from(n - 1)`
(range.rs:260).  As in the gate coefficients, the shifted literal `1` is
32-bit, and `as usize` on a 64-bit target is the same two's-complement
reinterpretation as `as u64`: the shift panics (`none`) for `base ≥ 32`,
and at `base = 31` the sign-extending cast makes `n - 1` equal to
`0xFFFFFFFF7FFFFFFF` rather than `2^31 - 1`. -/
def maskUsize (base : ℕ) : Option ℕ :=
  (shlOneI32 base).map (fun x => i32AsU64 x - 1)

/-- The limb-extraction loop of the test circuit's `decompose` closure
(range.rs:254-266): repeatedly mask the low `base` bits
(`BigUint::from(n - 1) & e`) and shift right.  `count` is the number of
limbs still to produce (`LIMB_SIZE` at the top call).  The mask is
written here as the canonical `2^base - 1`; by `maskUsize_eq` below this
is the machine mask `maskUsize` exactly when `base ≤ 30`, and every
theorem about `decompose` carries a hypothesis keeping `base` in that
range. -/
def decomposeLoop (base : ℕ) : ℕ → ℕ → List ℕ
  | _, 0 => []
  | e, count + 1 => (e &&& (2 ^ base - 1)) :: decomposeLoop base (e >>> base) count

/-- The `decompose` closure of the test circuit (range.rs:254-266) for a
field element: its canonical byte representation is the natural number
`e.val`, each limb is masked out, converted back into the field through
a decimal string (`F::from_str`), little-endian.  Faithful to the closure
for `base ≤ 30`, where the machine mask is `2^base - 1` (`maskUsize_eq`). -/
def decompose (base : ℕ) (e : F) : Fin 4 → F :=
  fun k => ((decomposeLoop base e.val 4).getD k.val 0 : ℕ)

/-- All registered gates vanish at every row of the trace. -/
def gatesHold (cfg : RangeConfigE) (tr : ℤ → Col → F) (s : ℤ → Bool) : Prop :=
  ∀ g ∈ cfg.gates, ∀ row : ℤ, Expr.eval tr s row g = 0

/-- Every registered lookup input lies in the small-range table at every
row of the trace. -/
def lookupsHold (cfg : RangeConfigE) (tr : ℤ → Col → F) (s : ℤ → Bool) : Prop :=
  ∀ e ∈ cfg.lookups, ∀ row : ℤ, Expr.eval tr s row e ∈ cfg.small_range_table_values

/-- The full constraint set registered by `configure` is satisfied. -/
def allSatisfied (cfg : RangeConfigE) (tr : ℤ → Col → F) (s : ℤ → Bool) : Prop :=
  gatesHold cfg tr s ∧ lookupsHold cfg tr s

/-- The trace obtained by replaying the witness-bearing `decomposition`
call onto a fresh region. -/
def decompTrace (v : F) (l : Fin 4 → F) : ℤ → Col → F :=
  (applyOps (decomposition (some v) (some l)).1).1

/-- The selector activation obtained by replaying the witness-bearing
`decomposition` call onto a fresh region. -/
def decompSel (v : F) (l : Fin 4 → F) : ℤ → Bool :=
  (applyOps (decomposition (some v) (some l)).1).2

/-- The gate polynomial `configure` registers, with the coefficient values
it computes when no machine shift overflows: `2^BASE`, `2^(2·BASE)`,
`2^(3·BASE)`. -/
def gateExpr (base : ℕ) : Expr :=
  Expr.mul Expr.sel
    (Expr.sub
      (Expr.add
        (Expr.add
          (Expr.add (Expr.advice Col.a 0)
            (Expr.mul (Expr.advice Col.b 0) (Expr.const ((2 ^ base : ℕ) : F))))
          (Expr.mul (Expr.advice Col.c 0) (Expr.const ((2 ^ (2 * base) : ℕ) : F))))
        (Expr.mul (Expr.advice Col.d 0) (Expr.const ((2 ^ (3 * base) : ℕ) : F))))
      (Expr.advice Col.d (-1)))

/-- The four lookup input expressions `configure` registers. -/
def rangeLookups : List Expr :=
  [ Expr.mul (Expr.advice Col.a 0) Expr.sel
  , Expr.mul (Expr.advice Col.b 0) Expr.sel
  , Expr.mul (Expr.advice Col.c 0) Expr.sel
  , Expr.mul (Expr.advice Col.c 0) Expr.sel ]

/-- The configuration `configure base` produces when no machine shift
overflows. -/
def cfgAt (base : ℕ) : RangeConfigE :=
  { lookups := rangeLookups
  , gates := [gateExpr base]
  , small_range_table_values := smallRangeTableValues base }

theorem pow_lt_pPasta {k : ℕ} (h : k ≤ 64) : 2 ^ k < pPasta :=
  lt_of_le_of_lt (Nat.pow_le_pow_right (by norm_num) h) (by norm_num [pPasta])

theorem shlOneI32_eq {k : ℕ} (h : k ≤ 30) : shlOneI32 k = some ((2 : ℤ) ^ k) := by
  have hk32 : k < 32 := by omega
  have hlt : (2 : ℤ) ^ k ≤ 2 ^ 30 := pow_le_pow_right₀ (by norm_num) h
  rw [shlOneI32, if_pos hk32]
  congr 1
  have h0 : (0 : ℤ) ≤ 2 ^ k + 2 ^ 31 := by positivity
  have h1 : (2 : ℤ) ^ k + 2 ^ 31 < 2 ^ 32 := by
    have : (2 : ℤ) ^ 30 + 2 ^ 31 < 2 ^ 32 := by norm_num
    omega
  rw [Int.emod_eq_of_lt h0 h1]
  ring

theorem gateCoeff_eq {k : ℕ} (h : k ≤ 30) : gateCoeff k = some ((2 ^ k : ℕ) : F) := by
  rw [gateCoeff, shlOneI32_eq h, Option.map_some']
  congr 1
  unfold fromU64 i32AsU64
  congr 1
  rw [show ((2 : ℤ) ^ k) = ((2 ^ k : ℕ) : ℤ) from by push_cast; ring]
  rw [Int.emod_eq_of_lt (by positivity) ?_, Int.toNat_natCast]
  push_cast
  calc (2 : ℤ) ^ k ≤ 2 ^ 30 := pow_le_pow_right₀ (by norm_num) h
  _ < 2 ^ 64 := by norm_num

theorem gateCoeff_none {k : ℕ} (h : 32 ≤ k) : gateCoeff k = none := by
  rw [gateCoeff, shlOneI32, if_neg (by omega)]
  rfl

theorem configure_eq {base : ℕ} (h3 : 3 * base < 32) :
    configure base = some (cfgAt base) := by
  rw [configure, if_pos (by omega : base < 64), gateCoeff_eq (by omega : base ≤ 30),
      gateCoeff_eq (by omega : 2 * base ≤ 30), gateCoeff_eq (by omega : 3 * base ≤ 30)]
  rfl

theorem decompTrace_zero_a (v : F) (l : Fin 4 → F) : decompTrace v l 0 Col.a = 0 := rfl

theorem decompTrace_zero_b (v : F) (l : Fin 4 → F) : decompTrace v l 0 Col.b = 0 := rfl

theorem decompTrace_zero_c (v : F) (l : Fin 4 → F) : decompTrace v l 0 Col.c = 0 := rfl

theorem decompTrace_zero_d (v : F) (l : Fin 4 → F) : decompTrace v l 0 Col.d = v := rfl

theorem decompTrace_one_a (v : F) (l : Fin 4 → F) : decompTrace v l 1 Col.a = l 0 := rfl

theorem decompTrace_one_b (v : F) (l : Fin 4 → F) : decompTrace v l 1 Col.b = l 1 := rfl

theorem decompTrace_one_c (v : F) (l : Fin 4 → F) : decompTrace v l 1 Col.c = l 2 := rfl

theorem decompTrace_one_d (v : F) (l : Fin 4 → F) : decompTrace v l 1 Col.d = l 3 := rfl

theorem decompSel_one (v : F) (l : Fin 4 → F) : decompSel v l 1 = true := rfl

theorem decompSel_ne (v : F) (l : Fin 4 → F) {r : ℤ} (h : r ≠ 1) :
    decompSel v l r = false := by
  simp [decompSel, applyOps, decomposition, h]

theorem zero_mem_table (base : ℕ) : (0 : F) ∈ smallRangeTableValues base :=
  List.mem_map.2 ⟨0, List.mem_range.2 (Nat.two_pow_pos base), by simp [fromU64]⟩

theorem natCast_mem_table {base i : ℕ} (h : i < 2 ^ base) :
    ((i : ℕ) : F) ∈ smallRangeTableValues base :=
  List.mem_map.2 ⟨i, List.mem_range.2 h, rfl⟩

theorem val_lt_of_mem_table {base : ℕ} (hb : 2 ^ base ≤ pPasta) {x : F}
    (hx : x ∈ smallRangeTableValues base) : x.val < 2 ^ base := by
  rcases List.mem_map.1 hx with ⟨i, hi, rfl⟩
  rw [fromU64, ZMod.val_cast_of_lt (lt_of_lt_of_le (List.mem_range.1 hi) hb)]
  exact List.mem_range.1 hi

theorem gateExpr_eval_one (base : ℕ) (v : F) (l : Fin 4 → F) :
    Expr.eval (decompTrace v l) (decompSel v l) 1 (gateExpr base) =
      l 0 + l 1 * ((2 ^ base : ℕ) : F) + l 2 * ((2 ^ (2 * base) : ℕ) : F)
        + l 3 * ((2 ^ (3 * base) : ℕ) : F) - v := by
  have e1 : (1 : ℤ) + 0 = 1 := by norm_num
  have e2 : (1 : ℤ) + (-1) = 0 := by norm_num
  simp only [gateExpr, Expr.eval, e1, e2, decompTrace_one_a, decompTrace_one_b,
    decompTrace_one_c, decompTrace_one_d, decompTrace_zero_d, decompSel_one, if_true]
  ring

theorem gateExpr_eval_ne_one (base : ℕ) (v : F) (l : Fin 4 → F) {r : ℤ} (h : r ≠ 1) :
    Expr.eval (decompTrace v l) (decompSel v l) r (gateExpr base) = 0 := by
  simp only [gateExpr, Expr.eval, decompSel_ne v l h]
  simp

theorem lookup_eval_ne_one (v : F) (l : Fin 4 → F) (col : Col) {r : ℤ} (h : r ≠ 1) :
    Expr.eval (decompTrace v l) (decompSel v l) r
      (Expr.mul (Expr.advice col 0) Expr.sel) = 0 := by
  simp only [Expr.eval, decompSel_ne v l h]
  simp

theorem lookupA_eval_one (v : F) (l : Fin 4 → F) :
    Expr.eval (decompTrace v l) (decompSel v l) 1
      (Expr.mul (Expr.advice Col.a 0) Expr.sel) = l 0 := by
  have e1 : (1 : ℤ) + 0 = 1 := by norm_num
  simp only [Expr.eval, e1, decompTrace_one_a, decompSel_one, if_true]
  ring

theorem lookupB_eval_one (v : F) (l : Fin 4 → F) :
    Expr.eval (decompTrace v l) (decompSel v l) 1
      (Expr.mul (Expr.advice Col.b 0) Expr.sel) = l 1 := by
  have e1 : (1 : ℤ) + 0 = 1 := by norm_num
  simp only [Expr.eval, e1, decompTrace_one_b, decompSel_one, if_true]
  ring

theorem lookupC_eval_one (v : F) (l : Fin 4 → F) :
    Expr.eval (decompTrace v l) (decompSel v l) 1
      (Expr.mul (Expr.advice Col.c 0) Expr.sel) = l 2 := by
  have e1 : (1 : ℤ) + 0 = 1 := by norm_num
  simp only [Expr.eval, e1, decompTrace_one_c, decompSel_one, if_true]
  ring

theorem decomp_allSatisfied_iff (base : ℕ) (v : F) (l : Fin 4 → F) :
    allSatisfied (cfgAt base) (decompTrace v l) (decompSel v l) ↔
      (l 0 + l 1 * ((2 ^ base : ℕ) : F) + l 2 * ((2 ^ (2 * base) : ℕ) : F)
          + l 3 * ((2 ^ (3 * base) : ℕ) : F) = v)
        ∧ l 0 ∈ smallRangeTableValues base ∧ l 1 ∈ smallRangeTableValues base
        ∧ l 2 ∈ smallRangeTableValues base := by
  constructor
  · rintro ⟨hg, hl⟩
    have hgate := hg (gateExpr base) (by simp [cfgAt]) 1
    rw [gateExpr_eval_one, sub_eq_zero] at hgate
    have ha := hl (Expr.mul (Expr.advice Col.a 0) Expr.sel) (by simp [cfgAt, rangeLookups]) 1
    have hb := hl (Expr.mul (Expr.advice Col.b 0) Expr.sel) (by simp [cfgAt, rangeLookups]) 1
    have hc := hl (Expr.mul (Expr.advice Col.c 0) Expr.sel) (by simp [cfgAt, rangeLookups]) 1
    rw [lookupA_eval_one] at ha
    rw [lookupB_eval_one] at hb
    rw [lookupC_eval_one] at hc
    exact ⟨hgate, ha, hb, hc⟩
  · rintro ⟨hsum, h0, h1, h2⟩
    constructor
    · intro g hg row
      have hgeq : g = gateExpr base := by simpa [cfgAt] using hg
      subst hgeq
      by_cases hr : row = 1
      · subst hr
        rw [gateExpr_eval_one, hsum, sub_self]
      · exact gateExpr_eval_ne_one base v l hr
    · intro e he row
      have hmem : e = Expr.mul (Expr.advice Col.a 0) Expr.sel
          ∨ e = Expr.mul (Expr.advice Col.b 0) Expr.sel
          ∨ e = Expr.mul (Expr.advice Col.c 0) Expr.sel := by
        simpa [cfgAt, rangeLookups, or_assoc] using he
      by_cases hr : row = 1
      · subst hr
        rcases hmem with rfl | rfl | rfl
        · rw [lookupA_eval_one]; exact h0
        · rw [lookupB_eval_one]; exact h1
        · rw [lookupC_eval_one]; exact h2
      · rcases hmem with rfl | rfl | rfl <;>
          [rw [lookup_eval_ne_one v l Col.a hr];
           rw [lookup_eval_ne_one v l Col.b hr];
           rw [lookup_eval_ne_one v l Col.c hr]] <;>
        exact zero_mem_table base

theorem maskUsize_eq {base : ℕ} (h : base ≤ 30) :
    maskUsize base = some (2 ^ base - 1) := by
  rw [maskUsize, shlOneI32_eq h, Option.map_some']
  congr 1
  unfold i32AsU64
  rw [Int.emod_eq_of_lt (by positivity) ?_]
  · rw [show ((2 : ℤ) ^ base) = ((2 ^ base : ℕ) : ℤ) from by push_cast; ring,
      Int.toNat_natCast]
  · calc (2 : ℤ) ^ base ≤ 2 ^ 30 := pow_le_pow_right₀ (by norm_num) h
    _ < 2 ^ 64 := by norm_num

theorem decomposeLoop_succ (base e count : ℕ) :
    decomposeLoop base e (count + 1) = (e % 2 ^ base) :: decomposeLoop base (e >>> base) count := by
  rw [decomposeLoop, Nat.and_pow_two_sub_one_eq_mod]

theorem decomposeLoop_four (base e : ℕ) :
    decomposeLoop base e 4 =
      [e % 2 ^ base, e / 2 ^ base % 2 ^ base,
       e / 2 ^ (2 * base) % 2 ^ base, e / 2 ^ (3 * base) % 2 ^ base] := by
  show decomposeLoop base e (3 + 1) = _
  rw [decomposeLoop_succ]
  show _ :: decomposeLoop base _ (2 + 1) = _
  rw [decomposeLoop_succ]
  show _ :: _ :: decomposeLoop base _ (1 + 1) = _
  rw [decomposeLoop_succ]
  show _ :: _ :: _ :: decomposeLoop base _ (0 + 1) = _
  rw [decomposeLoop_succ]
  show _ :: _ :: _ :: _ :: decomposeLoop base _ 0 = _
  rw [decomposeLoop]
  simp only [Nat.shiftRight_eq_div_pow, Nat.div_div_eq_div_mul, ← pow_add]
  rw [show base + base = 2 * base from by ring]
  rw [show 2 * base + base = 3 * base from by ring]

theorem decompose_eq (base : ℕ) (v : F) (k : Fin 4) :
    decompose base v k = ((v.val / 2 ^ (base * k.val) % 2 ^ base : ℕ) : F) := by
  fin_cases k <;>
    simp [decompose, decomposeLoop_four, mul_comm base]

theorem recombine_eq_mod (b e : ℕ) :
    e % 2 ^ b + e / 2 ^ b % 2 ^ b * 2 ^ b + e / 2 ^ (2 * b) % 2 ^ b * 2 ^ (2 * b)
      + e / 2 ^ (3 * b) % 2 ^ b * 2 ^ (3 * b) = e % 2 ^ (4 * b) := by
  have hp : ∀ k : ℕ, 2 ^ (k * b) = (2 ^ b) ^ k := fun k => by rw [mul_comm k b, pow_mul]
  rw [hp 2, hp 3, hp 4]
  set m := 2 ^ b with hm
  have A := @Nat.mod_pow_succ e m 1
  have B := @Nat.mod_pow_succ e m 2
  have C := @Nat.mod_pow_succ e m 3
  norm_num at A B C
  rw [C, B, A]
  ring

theorem decompose_recombine (base : ℕ) (v : F) :
    decompose base v 0 + decompose base v 1 * ((2 ^ base : ℕ) : F)
      + decompose base v 2 * ((2 ^ (2 * base) : ℕ) : F)
      + decompose base v 3 * ((2 ^ (3 * base) : ℕ) : F)
      = ((v.val % 2 ^ (4 * base) : ℕ) : F) := by
  have h0 := decompose_eq base v 0
  have h1 := decompose_eq base v 1
  have h2 := decompose_eq base v 2
  have h3 := decompose_eq base v 3
  simp only [Fin.val_zero, Fin.val_one, show ((2 : Fin 4).val) = 2 from rfl,
    show ((3 : Fin 4).val) = 3 from rfl, mul_zero, mul_one, pow_zero, Nat.div_one,
    mul_comm base 2, mul_comm base 3] at h0 h1 h2 h3
  rw [h0, h1, h2, h3, ← recombine_eq_mod base v.val]
  push_cast
  ring

theorem val_16 : (16 : F).val = 16 := by
  have h : ((16 : ℕ) : F) = (16 : F) := by norm_cast
  rw [← h, ZMod.val_cast_of_lt (by norm_num [pPasta])]

theorem val_43981 : (43981 : F).val = 43981 := by
  have h : ((43981 : ℕ) : F) = (43981 : F) := by norm_cast
  rw [← h, ZMod.val_cast_of_lt (by norm_num [pPasta])]

theorem val_65536 : (65536 : F).val = 65536 := by
  have h : ((65536 : ℕ) : F) = (65536 : F) := by norm_cast
  rw [← h, ZMod.val_cast_of_lt (by norm_num [pPasta])]

/-- Claim C1 (code bug): the claim says `configure` registers 4 lookup
constraints, one per advice column `a, b, c, d`.  The code does register 4
lookups, each pairing (selector × a column) with the small-range table,
but the columns queried are `a, b, c, c`: the fourth lookup (range.rs:176)
queries column `c` again instead of column `d`, contradicting the source's
own goal comment `d_i < 2^b` (range.rs:19).  This theorem evaluates
`configure` at `BASE = 4`: the registered lookups are the `a, b, c, c`
list and not the `a, b, c, d` list the claim describes. -/
theorem C1_fourth_lookup_queries_c :
    (configure 4).map RangeConfigE.lookups =
      some [Expr.mul (Expr.advice Col.a 0) Expr.sel, Expr.mul (Expr.advice Col.b 0) Expr.sel,
            Expr.mul (Expr.advice Col.c 0) Expr.sel, Expr.mul (Expr.advice Col.c 0) Expr.sel]
    ∧ (configure 4).map RangeConfigE.lookups ≠
      some [Expr.mul (Expr.advice Col.a 0) Expr.sel, Expr.mul (Expr.advice Col.b 0) Expr.sel,
            Expr.mul (Expr.advice Col.c 0) Expr.sel, Expr.mul (Expr.advice Col.d 0) Expr.sel] := by
  constructor
  · rw [configure_eq (by norm_num)]
    rfl
  · decide

/-- Claim C2 (code bug): the claim says a limb value `≥ 2^B` in any of the
four columns, in particular the top limb in column `d`, makes the lookup
registered for that column unsatisfied.  Because the fourth lookup queries
column `c` instead of `d` (range.rs:176), the witness `value = 65536`,
limbs `(0, 0, 0, 16)` at `BASE = 4` — whose top limb `16 ≥ 2^4` is out of
range — satisfies the complete registered constraint set (gate and all
four lookups), contradicting the claim and the source's own goal comment
`d_i < 2^b` (range.rs:19). -/
theorem C2_top_limb_unchecked :
    2 ^ 4 ≤ ((fun k : Fin 4 => if k.val = 3 then (16 : F) else 0) 3).val
    ∧ ∃ cfg, configure 4 = some cfg ∧
        allSatisfied cfg
          (decompTrace 65536 (fun k : Fin 4 => if k.val = 3 then (16 : F) else 0))
          (decompSel 65536 (fun k : Fin 4 => if k.val = 3 then (16 : F) else 0)) := by
  constructor
  · show 2 ^ 4 ≤ (16 : F).val
    rw [val_16]
    norm_num
  · refine ⟨cfgAt 4, configure_eq (by norm_num),
      (decomp_allSatisfied_iff 4 _ _).2 ⟨?_, ?_, ?_, ?_⟩⟩
    · show (0 : F) + 0 * ((2 ^ 4 : ℕ) : F) + 0 * ((2 ^ (2 * 4) : ℕ) : F)
        + 16 * ((2 ^ (3 * 4) : ℕ) : F) = 65536
      push_cast
      norm_num
    · exact zero_mem_table 4
    · exact zero_mem_table 4
    · exact zero_mem_table 4

/-- Claim C3 (confirmed): `configure` registers exactly one algebraic
gate, the expression selector · (a + b·2^B + c·2^(2B) + d·2^(3B) − d_prev)
with `a, b, c, d` read at the current row and `d_prev` column `d` one row
above (range.rs:181-196); wherever the selector is set, the gate vanishes
exactly when the recombination equation holds. -/
theorem C3_single_gate (base : ℕ) (h3 : 3 * base < 32) :
    (configure base).map RangeConfigE.gates = some [gateExpr base]
    ∧ ∀ (tr : ℤ → Col → F) (s : ℤ → Bool) (row : ℤ), s row = true →
        (Expr.eval tr s row (gateExpr base) = 0 ↔
          tr row Col.a + tr row Col.b * ((2 ^ base : ℕ) : F)
            + tr row Col.c * ((2 ^ (2 * base) : ℕ) : F)
            + tr row Col.d * ((2 ^ (3 * base) : ℕ) : F)
            - tr (row - 1) Col.d = 0) := by
  refine ⟨by rw [configure_eq h3]; rfl, fun tr s row hs => ?_⟩
  simp only [gateExpr, Expr.eval, hs, if_true, one_mul, add_zero, ← sub_eq_add_neg]

/-- Witness for C3 at the test circuit's `BASE = 4`. -/
theorem C3_single_gate_witness :
    3 * 4 < 32 ∧
    ((configure 4).map RangeConfigE.gates = some [gateExpr 4]
    ∧ ∀ (tr : ℤ → Col → F) (s : ℤ → Bool) (row : ℤ), s row = true →
        (Expr.eval tr s row (gateExpr 4) = 0 ↔
          tr row Col.a + tr row Col.b * ((2 ^ 4 : ℕ) : F)
            + tr row Col.c * ((2 ^ (2 * 4) : ℕ) : F)
            + tr row Col.d * ((2 ^ (3 * 4) : ℕ) : F)
            - tr (row - 1) Col.d = 0)) :=
  ⟨by norm_num, C3_single_gate 4 (by norm_num)⟩

/-- Claim C4 (confirmed): for every field element `v` whose integer value
is at least `2^(L·B)` (`L = 4`), decomposing `v` into its truncated low
`L·B`-bit limbs (the test circuit's `decompose` closure) and running
`decomposition` produces a constraint set that is not satisfied: the limbs
recombine to `v mod 2^(L·B) ≠ v`, violating the gate. -/
theorem C4_out_of_range_unsatisfied (base : ℕ) (h3 : 3 * base < 32) (v : F)
    (hv : 2 ^ (4 * base) ≤ v.val) :
    ∃ cfg, configure base = some cfg ∧
      ¬ allSatisfied cfg (decompTrace v (decompose base v))
        (decompSel v (decompose base v)) := by
  refine ⟨cfgAt base, configure_eq h3, fun hsat => ?_⟩
  have hsum := ((decomp_allSatisfied_iff base v (decompose base v)).1 hsat).1
  rw [decompose_recombine] at hsum
  have hmodlt : v.val % 2 ^ (4 * base) < 2 ^ (4 * base) :=
    Nat.mod_lt _ (Nat.two_pow_pos _)
  have hval : (((v.val % 2 ^ (4 * base) : ℕ) : F)).val = v.val % 2 ^ (4 * base) :=
    ZMod.val_cast_of_lt (lt_trans hmodlt (pow_lt_pPasta (by omega)))
  rw [hsum] at hval
  rw [← hval] at hmodlt
  exact absurd (lt_of_lt_of_le hmodlt hv) (lt_irrefl _)

/-- Witness for C4 at `BASE = 4`, `v = 65536 = 2^16`: the test's own
failing instance (range.rs:301-308). -/
theorem C4_out_of_range_unsatisfied_witness :
    (3 * 4 < 32 ∧ 2 ^ (4 * 4) ≤ (65536 : F).val)
    ∧ ∃ cfg, configure 4 = some cfg ∧
        ¬ allSatisfied cfg (decompTrace 65536 (decompose 4 65536))
          (decompSel 65536 (decompose 4 65536)) := by
  have hv : 2 ^ (4 * 4) ≤ (65536 : F).val := by rw [val_65536]; norm_num
  exact ⟨⟨by norm_num, hv⟩, C4_out_of_range_unsatisfied 4 (by norm_num) 65536 hv⟩

/-- Claim C5 (confirmed): for every field element `v` with
`0 ≤ v < 2^(L·B)` (`L = 4`), decomposing `v` into its canonical
little-endian `B`-bit limbs (the test circuit's `decompose` closure) and
running `decomposition` yields a fully satisfied constraint set: the
single gate and all four registered lookups hold at every row. -/
theorem C5_in_range_satisfied (base : ℕ) (h3 : 3 * base < 32) (v : F)
    (hv : v.val < 2 ^ (4 * base)) :
    ∃ cfg, configure base = some cfg ∧
      allSatisfied cfg (decompTrace v (decompose base v))
        (decompSel v (decompose base v)) := by
  refine ⟨cfgAt base, configure_eq h3,
    (decomp_allSatisfied_iff base v (decompose base v)).2 ⟨?_, ?_, ?_, ?_⟩⟩
  · rw [decompose_recombine, Nat.mod_eq_of_lt hv]
    exact ZMod.natCast_rightInverse v
  · rw [decompose_eq]
    exact natCast_mem_table (Nat.mod_lt _ (Nat.two_pow_pos base))
  · rw [decompose_eq]
    exact natCast_mem_table (Nat.mod_lt _ (Nat.two_pow_pos base))
  · rw [decompose_eq]
    exact natCast_mem_table (Nat.mod_lt _ (Nat.two_pow_pos base))

/-- Witness for C5 at `BASE = 4`, `v = 0xabcd = 43981`, the test's own
passing instance (range.rs:286-299); its canonical limbs are
`[0xd, 0xc, 0xb, 0xa]`. -/
theorem C5_in_range_satisfied_witness :
    ((3 * 4 < 32 ∧ (43981 : F).val < 2 ^ (4 * 4))
      ∧ decompose 4 (43981 : F) 0 = 13 ∧ decompose 4 (43981 : F) 1 = 12
      ∧ decompose 4 (43981 : F) 2 = 11 ∧ decompose 4 (43981 : F) 3 = 10)
    ∧ ∃ cfg, configure 4 = some cfg ∧
        allSatisfied cfg (decompTrace 43981 (decompose 4 43981))
          (decompSel 43981 (decompose 4 43981)) := by
  have hv : (43981 : F).val < 2 ^ (4 * 4) := by rw [val_43981]; norm_num
  exact ⟨⟨⟨by norm_num, hv⟩, by decide, by decide, by decide, by decide⟩,
    C5_in_range_satisfied 4 (by norm_num) 43981 hv⟩

/-- Claim C6 (confirmed): the witness-bearing `decomposition` call enables
the selector at row offset 1, assigns zero into columns `a, b, c` at row
offset 0, the value into column `d` at row offset 0, and the four limbs
into columns `a, b, c, d` at row offset 1 — in that source order — and
returns success; replaying the operations yields exactly those cell
values. -/
theorem C6_decomposition_assigns (v : F) (l : Fin 4 → F) :
    decomposition (some v) (some l) =
      ([RegionOp.enableSel 1,
        RegionOp.assign Col.a 0 0, RegionOp.assign Col.b 0 0,
        RegionOp.assign Col.c 0 0, RegionOp.assign Col.d 0 v,
        RegionOp.assign Col.a 1 (l 0), RegionOp.assign Col.b 1 (l 1),
        RegionOp.assign Col.c 1 (l 2), RegionOp.assign Col.d 1 (l 3)], true)
    ∧ decompTrace v l 0 Col.a = 0 ∧ decompTrace v l 0 Col.b = 0
    ∧ decompTrace v l 0 Col.c = 0 ∧ decompTrace v l 0 Col.d = v
    ∧ decompTrace v l 1 Col.a = l 0 ∧ decompTrace v l 1 Col.b = l 1
    ∧ decompTrace v l 1 Col.c = l 2 ∧ decompTrace v l 1 Col.d = l 3
    ∧ decompSel v l 1 = true :=
  ⟨rfl, rfl, rfl, rfl, rfl, rfl, rfl, rfl, rfl, rfl⟩

/-- Claim C7 (confirmed): `decomposition` returns an error exactly when a
required witness is absent — `value_integer = none` or
`value_limbs = none` — and returns success when both are present. -/
theorem C7_error_iff_missing_witness (value_integer : Option F)
    (value_limbs : Option (Fin 4 → F)) :
    (decomposition value_integer value_limbs).2 = false ↔
      value_integer = none ∨ value_limbs = none := by
  cases value_integer <;> cases value_limbs <;> simp [decomposition]

/-- Claim C8 (confirmed): the lookup table built by `configure` and
written by `load_small_range_table` contains exactly `2^B` entries, the
value at index `i` being the field element `i`; the entries are pairwise
distinct, depend only on `B`, and are written once in index order. -/
theorem C8_table (base : ℕ) (h3 : 3 * base < 32) :
    ∃ cfg, configure base = some cfg ∧
      cfg.small_range_table_values = (List.range (2 ^ base)).map (fun i => ((i : ℕ) : F))
      ∧ cfg.small_range_table_values.length = 2 ^ base
      ∧ cfg.small_range_table_values.Nodup
      ∧ load_small_range_table cfg.small_range_table_values
          = (List.range (2 ^ base)).map (fun i => ((i : ℕ), ((i : ℕ) : F))) := by
  refine ⟨cfgAt base, configure_eq h3, rfl, ?_, ?_, ?_⟩
  · simp [cfgAt, smallRangeTableValues]
  · refine List.Nodup.map_on ?_ (List.nodup_range _)
    intro x hx y hy hxy
    have hb : 2 ^ base < pPasta := pow_lt_pPasta (by omega)
    have hxv : (fromU64 x).val = x :=
      ZMod.val_cast_of_lt (lt_trans (List.mem_range.1 hx) hb)
    have hyv : (fromU64 y).val = y :=
      ZMod.val_cast_of_lt (lt_trans (List.mem_range.1 hy) hb)
    rw [← hxv, ← hyv, hxy]
  · refine List.ext_getElem ?_ ?_
    · simp [load_small_range_table, cfgAt, smallRangeTableValues]
    · intro i h1 h2
      simp [load_small_range_table, cfgAt, smallRangeTableValues, fromU64]

/-- Witness for C8 at `BASE = 4`. -/
theorem C8_table_witness :
    3 * 4 < 32 ∧
    ∃ cfg, configure 4 = some cfg ∧
      cfg.small_range_table_values = (List.range (2 ^ 4)).map (fun i => ((i : ℕ) : F))
      ∧ cfg.small_range_table_values.length = 2 ^ 4
      ∧ cfg.small_range_table_values.Nodup
      ∧ load_small_range_table cfg.small_range_table_values
          = (List.range (2 ^ 4)).map (fun i => ((i : ℕ), ((i : ℕ) : F))) :=
  ⟨by norm_num, C8_table 4 (by norm_num)⟩

/-- Claim C9 (confirmed): for every field element `v` with
`v < 2^(L·B)` (`L = 4`), the `decompose` closure computes the canonical
little-endian base-`2^B` limbs `limb_k = (v / 2^(B·k)) mod 2^B`, and they
recombine to `v`; `decompose` is a total function, so the decomposition is
deterministic and total on that domain.  As for the other `configure`
theorems, `3·B < 32` is the range in which the gadget's machine
arithmetic works at all; the first conjunct records that within it the
closure's machine mask `(1i32 << B) as usize - 1` is the canonical
`2^B - 1`, so the embedding is exact there. -/
theorem C9_roundtrip (base : ℕ) (h3 : 3 * base < 32) (v : F)
    (hv : v.val < 2 ^ (4 * base)) :
    maskUsize base = some (2 ^ base - 1)
    ∧ (∀ k : Fin 4, decompose base v k = ((v.val / 2 ^ (base * k.val) % 2 ^ base : ℕ) : F))
    ∧ decompose base v 0 + decompose base v 1 * ((2 ^ base : ℕ) : F)
        + decompose base v 2 * ((2 ^ (2 * base) : ℕ) : F)
        + decompose base v 3 * ((2 ^ (3 * base) : ℕ) : F) = v :=
  ⟨maskUsize_eq (by omega), decompose_eq base v, by
    rw [decompose_recombine, Nat.mod_eq_of_lt hv]
    exact ZMod.natCast_rightInverse v⟩

/-- Witness for C9 at `BASE = 4`, `v = 0xabcd = 43981`. -/
theorem C9_roundtrip_witness :
    (3 * 4 < 32 ∧ (43981 : F).val < 2 ^ (4 * 4))
    ∧ (maskUsize 4 = some (2 ^ 4 - 1)
      ∧ (∀ k : Fin 4, decompose 4 (43981 : F) k
          = (((43981 : F).val / 2 ^ (4 * k.val) % 2 ^ 4 : ℕ) : F))
      ∧ decompose 4 (43981 : F) 0 + decompose 4 (43981 : F) 1 * ((2 ^ 4 : ℕ) : F)
          + decompose 4 (43981 : F) 2 * ((2 ^ (2 * 4) : ℕ) : F)
          + decompose 4 (43981 : F) 3 * ((2 ^ (3 * 4) : ℕ) : F) = 43981) := by
  have hv : (43981 : F).val < 2 ^ (4 * 4) := by rw [val_43981]; norm_num
  exact ⟨⟨by norm_num, hv⟩, C9_roundtrip 4 (by norm_num) 43981 hv⟩

/-- Claim C10 counterexample: the claim asserts the machine-integer shift
results equal the mathematical powers under the precondition
`3·BASE < 64`, with overflow starting only at `BASE ≥ 22`.  At `BASE = 11`
the precondition `3·11 = 33 < 64` holds, yet `configure` already fails:
the literal `1` in `(1 << (3·BASE)) as u64` is 32-bit, and a shift by 33
overflows (panics in debug builds). -/
theorem C10_counterexample : 3 * 11 < 64 ∧ configure 11 = none :=
  ⟨by norm_num, by decide⟩

/-- Claim C10 as amended: the gate coefficients equal the mathematical
powers `2^B, 2^(2B), 2^(3B)` under the precondition `3·BASE < 32` (the
shifted literal is 32-bit, not 64-bit); for `3·BASE ≥ 32` — i.e.
`BASE ≥ 11` — the shift overflows and `configure` does not produce the
intended coefficients (it panics, or wraps with overflow checks off). -/
theorem C10_coeff_range (base : ℕ) :
    (3 * base < 32 →
      gateCoeff base = some ((2 ^ base : ℕ) : F)
      ∧ gateCoeff (2 * base) = some ((2 ^ (2 * base) : ℕ) : F)
      ∧ gateCoeff (3 * base) = some ((2 ^ (3 * base) : ℕ) : F)
      ∧ configure base = some (cfgAt base))
    ∧ (32 ≤ 3 * base → configure base = none) := by
  constructor
  · intro h3
    exact ⟨gateCoeff_eq (by omega), gateCoeff_eq (by omega), gateCoeff_eq (by omega),
      configure_eq h3⟩
  · intro h3
    by_cases h64 : base < 64
    · rw [configure, if_pos h64]
      by_cases hb1 : base < 32
      · rw [gateCoeff, shlOneI32, if_pos hb1, Option.map_some', Option.some_bind]
        by_cases hb2 : 2 * base < 32
        · rw [gateCoeff, shlOneI32, if_pos hb2, Option.map_some', Option.some_bind]
          rw [gateCoeff_none (by omega : 32 ≤ 3 * base)]
          rfl
        · rw [gateCoeff_none (by omega : 32 ≤ 2 * base)]
          rfl
      · rw [gateCoeff_none (by omega : 32 ≤ base)]
        rfl
    · rw [configure, if_neg h64]

/-- Witness for C10: both branches at concrete bases, `BASE = 4` in
range and `BASE = 11` overflowing. -/
theorem C10_coeff_range_witness :
    ((3 * 4 < 32) ∧
      (gateCoeff 4 = some ((2 ^ 4 : ℕ) : F)
      ∧ gateCoeff (2 * 4) = some ((2 ^ (2 * 4) : ℕ) : F)
      ∧ gateCoeff (3 * 4) = some ((2 ^ (3 * 4) : ℕ) : F)
      ∧ configure 4 = some (cfgAt 4)))
    ∧ ((32 ≤ 3 * 11) ∧ configure 11 = none) :=
  ⟨⟨by norm_num, (C10_coeff_range 4).1 (by norm_num)⟩,
   ⟨by norm_num, (C10_coeff_range 11).2 (by norm_num)⟩⟩
